import Mathlib

/-!
Verification of the streaming newsletter-generation pipeline:
the SSE event codec and chunk parser (`src/lib/streaming/sse-helpers.ts`),
the feed staleness evaluator (`getFeedsToRefresh`), the generation
orchestrator (`src/app/api/newsletter/generate-stream/route.ts`), and the
client stream reducer (`useNewsletterStream`).

Strings are modelled as `List Char`; JSON values as the inductive `Json`
below, with JavaScript numbers restricted to integers (the protocol only ever
carries integer counts, and `partial` data is treated as an arbitrary JSON
value).  `JSON.stringify` and `JSON.parse` are modelled by the executable
`Json.stringify` and `Json.parse` defined here.
-/

/-- JSON value domain.  Numbers are modelled as integers. -/
inductive Json where
  | null
  | bool (b : Bool)
  | num (n : Int)
  | str (s : List Char)
  | arr (elems : List Json)
  | obj (fields : List (List Char × Json))

/-- Decimal digit character, for serializing numbers. -/
def digitChar : Nat → Char
  | 0 => '0' | 1 => '1' | 2 => '2' | 3 => '3' | 4 => '4'
  | 5 => '5' | 6 => '6' | 7 => '7' | 8 => '8' | _ => '9'

/-- Hexadecimal digit character (lowercase, as produced by `JSON.stringify`). -/
def hexDigitChar : Nat → Char
  | 0 => '0' | 1 => '1' | 2 => '2' | 3 => '3' | 4 => '4'
  | 5 => '5' | 6 => '6' | 7 => '7' | 8 => '8' | 9 => '9'
  | 10 => 'a' | 11 => 'b' | 12 => 'c' | 13 => 'd' | 14 => 'e' | _ => 'f'

/-- Decimal representation of a natural number, most significant digit first. -/
def natToChars (n : Nat) : List Char :=
  if n < 10 then [digitChar n]
  else natToChars (n / 10) ++ [digitChar (n % 10)]
termination_by n
decreasing_by exact Nat.div_lt_self (by omega) (by omega)

/-- Decimal representation of an integer (`JSON.stringify` on an integer). -/
def intToChars (n : Int) : List Char :=
  if n < 0 then '-' :: natToChars n.natAbs else natToChars n.natAbs

/-- JSON string escaping of one character, as performed by `JSON.stringify`:
named escapes for quote, backslash and common control characters, and a
`\u00XX` escape for the remaining control characters. -/
def uEscape (n : Nat) : List Char :=
  '\\' :: 'u' :: '0' :: '0' :: hexDigitChar (n / 16) :: [hexDigitChar (n % 16)]

def escChar (c : Char) : List Char :=
  if c = '"' then ['\\', '"']
  else if c = '\\' then ['\\', '\\']
  else if c = '\n' then ['\\', 'n']
  else if c = '\r' then ['\\', 'r']
  else if c = '\t' then ['\\', 't']
  else if c = '\x08' then ['\\', 'b']
  else if c = '\x0C' then ['\\', 'f']
  else if c.toNat < 32 then uEscape c.toNat
  else [c]

/-- JSON string escaping of a character sequence. -/
def escBody : List Char → List Char
  | [] => []
  | c :: cs => escChar c ++ escBody cs

mutual

/-- `JSON.stringify`: compact serialization, no whitespace, insertion-ordered
object fields. -/
def Json.stringify : Json → List Char
  | .null => "null".data
  | .bool true => "true".data
  | .bool false => "false".data
  | .num n => intToChars n
  | .str s => '"' :: escBody s ++ ['"']
  | .arr [] => ['[', ']']
  | .arr (v :: vs) => '[' :: Json.stringifyElems v vs ++ [']']
  | .obj [] => ['{', '}']
  | .obj (f :: fs) => '{' :: Json.stringifyFields f fs ++ ['}']
termination_by j => sizeOf j
decreasing_by all_goals (simp <;> omega)

/-- Comma-separated serialization of a non-empty array body. -/
def Json.stringifyElems : Json → List Json → List Char
  | v, [] => Json.stringify v
  | v, w :: ws => Json.stringify v ++ ',' :: Json.stringifyElems w ws
termination_by v vs => 1 + sizeOf v + sizeOf vs
decreasing_by all_goals (simp <;> omega)

/-- Comma-separated serialization of a non-empty object body. -/
def Json.stringifyFields : (List Char × Json) → List (List Char × Json) → List Char
  | (k, v), [] => '"' :: escBody k ++ '"' :: ':' :: Json.stringify v
  | (k, v), f :: fs =>
      ('"' :: escBody k ++ '"' :: ':' :: Json.stringify v) ++ ',' :: Json.stringifyFields f fs
termination_by f fs => 1 + sizeOf f + sizeOf fs
decreasing_by all_goals (simp <;> omega)

end

/-- Numeric value of a decimal digit character. -/
def digitVal (c : Char) : Nat := c.toNat - 48

/-- Value of a digit string, most significant digit first. -/
def digitsVal (ds : List Char) : Nat := ds.foldl (fun a c => 10 * a + digitVal c) 0

/-- Splits off the longest leading run of decimal digits. -/
def grabDigits : List Char → List Char × List Char
  | [] => ([], [])
  | c :: cs =>
    if c.isDigit then
      let p := grabDigits cs
      (c :: p.1, p.2)
    else ([], c :: cs)

/-- Numeric value of a hexadecimal digit character. -/
def hexVal (c : Char) : Option Nat :=
  if c.isDigit then some (c.toNat - 48)
  else if 'a' ≤ c ∧ c ≤ 'f' then some (c.toNat - 87)
  else if 'A' ≤ c ∧ c ≤ 'F' then some (c.toNat - 55)
  else none

/-- Decoding of one named JSON string escape. -/
def unescChar (e : Char) : Option Char :=
  if e = '"' ∨ e = '\\' ∨ e = '/' then some e
  else if e = 'b' then some '\x08'
  else if e = 'f' then some '\x0C'
  else if e = 'n' then some '\n'
  else if e = 'r' then some '\r'
  else if e = 't' then some '\t'
  else none

/-- Parses a JSON string body after the opening quote, up to and including the
closing quote; returns the decoded characters and the remaining input. -/
def parseStringBody : List Char → Option (List Char × List Char)
  | [] => none
  | c :: rest =>
    if c = '"' then some ([], rest)
    else if c = '\\' then
      match rest with
      | [] => none
      | e :: rest2 =>
        if e = 'u' then
          match rest2 with
          | h1 :: h2 :: h3 :: h4 :: rest3 =>
            match hexVal h1, hexVal h2, hexVal h3, hexVal h4 with
            | some a, some b, some c4, some d =>
              (parseStringBody rest3).map
                (fun p => (Char.ofNat (((a * 16 + b) * 16 + c4) * 16 + d) :: p.1, p.2))
            | _, _, _, _ => none
          | _ => none
        else
          match unescChar e with
          | some u => (parseStringBody rest2).map (fun p => (u :: p.1, p.2))
          | none => none
    else (parseStringBody rest).map (fun p => (c :: p.1, p.2))

/-- Parses a JSON number (optional minus sign, then digits). -/
def parseNum : List Char → Option (Json × List Char)
  | [] => none
  | c :: rest =>
    if c = '-' then
      match grabDigits rest with
      | ([], _) => none
      | (ds, r) => some (.num (-(digitsVal ds : Int)), r)
    else
      match grabDigits (c :: rest) with
      | ([], _) => none
      | (ds, r) => some (.num ((digitsVal ds : Int)), r)

mutual

/-- Fuelled JSON value parser; the fuel only bounds bracket nesting and list
length, and the top-level entry point supplies the input length as fuel. -/
def parseValue : Nat → List Char → Option (Json × List Char)
  | 0, _ => none
  | _ + 1, [] => none
  | fuel + 1, c :: cs =>
    if c = '-' ∨ c.isDigit then parseNum (c :: cs)
    else if c = '"' then (parseStringBody cs).map (fun p => (Json.str p.1, p.2))
    else if c = '[' then (parseElems fuel cs).map (fun p => (Json.arr p.1, p.2))
    else if c = '{' then (parseFields fuel cs).map (fun p => (Json.obj p.1, p.2))
    else if c = 'n' then
      match cs with
      | 'u' :: 'l' :: 'l' :: rest => some (Json.null, rest)
      | _ => none
    else if c = 't' then
      match cs with
      | 'r' :: 'u' :: 'e' :: rest => some (Json.bool true, rest)
      | _ => none
    else if c = 'f' then
      match cs with
      | 'a' :: 'l' :: 's' :: 'e' :: rest => some (Json.bool false, rest)
      | _ => none
    else none

/-- Parses array elements after the opening bracket, up to and including the
closing bracket. -/
def parseElems : Nat → List Char → Option (List Json × List Char)
  | 0, _ => none
  | _ + 1, [] => none
  | fuel + 1, c :: cs =>
    if c = ']' then some ([], cs)
    else
      match parseValue fuel (c :: cs) with
      | some (v, ',' :: rest) => (parseElems fuel rest).map (fun p => (v :: p.1, p.2))
      | some (v, ']' :: rest) => some ([v], rest)
      | _ => none

/-- Parses object fields after the opening brace, up to and including the
closing brace. -/
def parseFields : Nat → List Char → Option (List (List Char × Json) × List Char)
  | 0, _ => none
  | _ + 1, [] => none
  | fuel + 1, c :: cs =>
    if c = '}' then some ([], cs)
    else if c = '"' then
      match parseStringBody cs with
      | some (k, ':' :: rest) =>
        match parseValue fuel rest with
        | some (v, ',' :: rest2) => (parseFields fuel rest2).map (fun p => ((k, v) :: p.1, p.2))
        | some (v, '}' :: rest2) => some ([(k, v)], rest2)
        | _ => none
      | _ => none
    else none

end

/-- `JSON.parse`: succeeds only when the whole input is one JSON value. -/
def Json.parse (cs : List Char) : Option Json :=
  match parseValue cs.length cs with
  | some (j, []) => some j
  | _ => none

/-!
SSE event codec and chunk parser, from `src/lib/streaming/sse-helpers.ts`.
The `partial` event kind is named `part` here because `partial` is a Lean
keyword; the wire representation still uses the string `"partial"`.
-/

/-- The six stream event kinds (`StreamEventType` in the source). -/
inductive StreamEventType where
  | refreshing
  | analyzing
  | metadata
  | part
  | complete
  | error
deriving DecidableEq

/-- Stream events with their declared fields (`AnyStreamEvent` in the source).
Counts are JavaScript numbers, modelled as integers; `part` carries an opaque
JSON payload; `error` carries a message string. -/
inductive AnyStreamEvent where
  | refreshing (feedCount : Int)
  | analyzing (feedCount : Int)
  | metadata (articlesAnalyzed : Int)
  | part (data : Json)
  | complete
  | error (error : List Char)

/-- The kind of an event. -/
def eventType : AnyStreamEvent → StreamEventType
  | .refreshing _ => .refreshing
  | .analyzing _ => .analyzing
  | .metadata _ => .metadata
  | .part _ => .part
  | .complete => .complete
  | .error _ => .error

/-- The JSON object an event serializes to, fields in object-literal order. -/
def toJson : AnyStreamEvent → Json
  | .refreshing n =>
      Json.obj [("type".data, Json.str "refreshing".data), ("feedCount".data, Json.num n)]
  | .analyzing n =>
      Json.obj [("type".data, Json.str "analyzing".data), ("feedCount".data, Json.num n)]
  | .metadata n =>
      Json.obj [("type".data, Json.str "metadata".data), ("articlesAnalyzed".data, Json.num n)]
  | .part d => Json.obj [("type".data, Json.str "partial".data), ("data".data, d)]
  | .complete => Json.obj [("type".data, Json.str "complete".data)]
  | .error msg => Json.obj [("type".data, Json.str "error".data), ("error".data, Json.str msg)]

/-- The literal prefix `"data: "`. -/
def dataHdr : List Char := ['d', 'a', 't', 'a', ':', ' ']

/-- `encodeSSE`: the wire text `"data: " + JSON.stringify(event) + "\n\n"`. -/
def encodeSSE (e : AnyStreamEvent) : List Char :=
  dataHdr ++ Json.stringify (toJson e) ++ ['\n', '\n']

/-- Concatenated encoding of a sequence of events (the full wire stream). -/
def encodeSSEStream : List AnyStreamEvent → List Char
  | [] => []
  | e :: es => encodeSSE e ++ encodeSSEStream es

/-- `parseSSELine`: lines starting with `"data: "` have the prefix stripped and
the remainder handed to `JSON.parse`; every other line, and every line whose
remainder is not valid JSON, yields `none`.  The source casts the parsed value
to `AnyStreamEvent` without any shape validation, so the result here is the raw
JSON value. -/
def parseSSELine (line : List Char) : Option Json :=
  match line with
  | 'd' :: 'a' :: 't' :: 'a' :: ':' :: ' ' :: rest => Json.parse rest
  | _ => none

/-- Split a character sequence at every occurrence of a separator, with the
semantics of JavaScript `String.prototype.split`: n separators produce n+1
(possibly empty) parts. -/
def splitOnChar (sep : Char) : List Char → List (List Char)
  | [] => [[]]
  | c :: cs =>
    if c = sep then [] :: splitOnChar sep cs
    else
      match splitOnChar sep cs with
      | [] => [[c]]
      | l :: ls => (c :: l) :: ls

/-- JavaScript truthiness of a JSON value. -/
def truthy : Json → Bool
  | Json.null => false
  | Json.bool b => b
  | Json.num n => n ≠ 0
  | Json.str s => s ≠ []
  | Json.arr _ => true
  | Json.obj _ => true

/-- `parseSSEChunk`: splits one chunk on newlines and collects the decoded
events, in order.  A decoded value is kept only when it passes the source's
`if (event)` guard, which tests JavaScript truthiness — so a falsy parsed
value (null, false, 0 or the empty string) is dropped just like an
undecodable line.  It is a pure function of the single chunk — no state is
carried across successive calls. -/
def parseSSEChunk (chunk : List Char) : List Json :=
  (splitOnChar '\n' chunk).filterMap (fun line =>
    match parseSSELine line with
    | some j => if truthy j then some j else none
    | none => none)

/-!
Feed staleness evaluator: `getFeedsToRefresh` from the newsletter generation
actions.  The Prisma store is modelled as a list of feed records; `findMany
where id in feedIds` is a filter in store order, and `findFirst orderBy
lastFetched desc` on a URL is the maximum recorded fetch time for that URL
(records whose `lastFetched` is null sort last, so the result's `lastFetched`
is null only when every record with that URL has a null `lastFetched`).
-/

/-- A stored RSS feed record: id, source URL, optional last fetch time
(milliseconds since epoch). -/
structure FeedRecord where
  id : String
  url : String
  lastFetched : Option Int

/-- The fixed freshness window, `3 * 60 * 60 * 1000` milliseconds. -/
def THREE_HOURS_MS : Int := 3 * 60 * 60 * 1000

/-- Maximum of a list of times, `none` on the empty list. -/
def maxTime : List Int → Option Int
  | [] => none
  | t :: ts =>
    match maxTime ts with
    | none => some t
    | some m => some (max t m)

/-- The most recent recorded fetch time among all stored records sharing a URL
(`findFirst where url orderBy lastFetched desc`, then `?.lastFetched`). -/
def mostRecentFetch (db : List FeedRecord) (url : String) : Option Int :=
  maxTime ((db.filter (fun f => f.url = url)).filterMap (fun f => f.lastFetched))

/-- `getFeedsToRefresh`: of the requested ids that have a stored record, keep
those whose URL either has no recorded fetch at all, or whose most recent
fetch across all records sharing the URL lies strictly more than 3 hours
before `now`. -/
def getFeedsToRefresh (db : List FeedRecord) (now : Int) (feedIds : List String) : List String :=
  (db.filter (fun f => f.id ∈ feedIds)).filterMap (fun feed =>
    match mostRecentFetch db feed.url with
    | none => some feed.id
    | some t => if now - t > THREE_HOURS_MS then some feed.id else none)

/-!
Generation orchestrator: the `ReadableStream` body of
`POST /api/newsletter/generate-stream`, with its collaborators modelled as
explicit values: the stale-feed set (result of `getFeedsToRefresh`), and the
outcome of `generateNewsletterStream` — either a thrown error message, or an
async snapshot stream together with the frozen article count.
-/

/-- The producer's snapshot stream: the cumulative snapshots it yields in
order, and optionally the message of an exception thrown after the last
yielded snapshot (`none` means clean exhaustion). -/
structure GenStream where
  snapshots : List Json
  tailError : Option (List Char)

/-- Placeholder for a stored article; the orchestrator only ever uses the
count of the retrieved list. -/
structure Article where
  guid : String
  pubDate : Int

/-- `generateNewsletterWithAIStream` after article retrieval: throws
`"No articles found for the selected feeds and date range"` when the retrieved
set is empty, otherwise returns the producer stream and the article count. -/
def generateNewsletterStreamModel (articles : List Article) (producer : GenStream) :
    Except (List Char) (GenStream × Nat) :=
  if articles.length = 0 then
    Except.error "No articles found for the selected feeds and date range".data
  else Except.ok (producer, articles.length)

/-- The ordered events emitted by the stream body: `refreshing` when the stale
set is non-empty, then `analyzing` with the total requested feed count; then
either the generator throws (one `error` event ends the stream), or `metadata`
with the frozen count, one `partial` per snapshot in order, and finally
`complete` on clean exhaustion or `error` if the producer threw mid-stream. -/
def routeStreamEvents (stale : List String) (totalFeeds : Nat)
    (gen : Except (List Char) (GenStream × Nat)) : List AnyStreamEvent :=
  (if stale.length > 0 then [AnyStreamEvent.refreshing (stale.length : Int)] else []) ++
  [AnyStreamEvent.analyzing (totalFeeds : Int)] ++
  match gen with
  | Except.error msg => [AnyStreamEvent.error msg]
  | Except.ok (gs, n) =>
      AnyStreamEvent.metadata (n : Int) :: gs.snapshots.map AnyStreamEvent.part ++
      match gs.tailError with
      | none => [AnyStreamEvent.complete]
      | some msg => [AnyStreamEvent.error msg]

/-- Recognizes `partial* (complete | error)` — the tail of the generation
phase after `metadata`. -/
def matchesGenTail : List StreamEventType → Bool
  | [StreamEventType.complete] => true
  | [StreamEventType.error] => true
  | StreamEventType.part :: rest => matchesGenTail rest
  | _ => false

/-- Recognizes `metadata partial* (complete | error)`. -/
def matchesAfterAnalyzing : List StreamEventType → Bool
  | StreamEventType.metadata :: rest => matchesGenTail rest
  | _ => false

/-- Recognizes the event-type sequence claimed for every generation request:
`refreshing? analyzing metadata partial* (complete | error)`. -/
def matchesClaimedSeq : List StreamEventType → Bool
  | StreamEventType.refreshing :: StreamEventType.analyzing :: rest => matchesAfterAnalyzing rest
  | StreamEventType.analyzing :: rest => matchesAfterAnalyzing rest
  | _ => false

/-- Recognizes the sequence the code actually guarantees:
`refreshing? analyzing (error | metadata partial* (complete | error))` —
an exception thrown before `metadata` ends the stream with a single `error`. -/
def matchesAmendedSeq : List StreamEventType → Bool
  | StreamEventType.refreshing :: StreamEventType.analyzing :: rest =>
      rest = [StreamEventType.error] || matchesAfterAnalyzing rest
  | StreamEventType.analyzing :: rest =>
      rest = [StreamEventType.error] || matchesAfterAnalyzing rest
  | _ => false

/-!
Request validation of the POST endpoint, over the parsed JSON body.
-/

/-- First value bound to a key in a JSON object's field list. -/
def lookupField : List (List Char × Json) → List Char → Option Json
  | [], _ => none
  | (k, v) :: rest, key => if k = key then some v else lookupField rest key

/-- Property access `body.k` on a parsed JSON body: `none` models `undefined`. -/
def jget (body : Json) (key : List Char) : Option Json :=
  match body with
  | Json.obj fields => lookupField fields key
  | _ => none

/-- Truthiness of a possibly-absent value (`undefined` is falsy). -/
def truthyOpt : Option Json → Bool
  | none => false
  | some j => truthy j

/-- `Array.isArray` on a possibly-absent value. -/
def isArrayOpt : Option Json → Bool
  | some (Json.arr _) => true
  | _ => false

/-- `.length` of a value known to be an array (0 otherwise; only consulted
after the array check). -/
def arrayLen : Option Json → Nat
  | some (Json.arr xs) => xs.length
  | _ => 0

/-- Outcome of the POST handler: a pre-stream JSON error response with an HTTP
status, or an opened SSE stream with the events it will emit. -/
inductive PostResponse where
  | jsonError (status : Nat) (msg : List Char)
  | sseStream (events : List AnyStreamEvent)

/-- The POST handler: validation guards in source order, then the SSE stream.
`stale` and `gen` stand for the awaited collaborator results used inside the
stream body. -/
def POST (body : Json) (stale : List String)
    (gen : Except (List Char) (GenStream × Nat)) : PostResponse :=
  let feedIds := jget body "feedIds".data
  let startDate := jget body "startDate".data
  let endDate := jget body "endDate".data
  if truthyOpt feedIds = false ∨ isArrayOpt feedIds = false ∨ arrayLen feedIds = 0 then
    PostResponse.jsonError 400 "feedIds is required and must be a non-empty array".data
  else if truthyOpt startDate = false ∨ truthyOpt endDate = false then
    PostResponse.jsonError 400 "startDate and endDate are required".data
  else
    PostResponse.sseStream (routeStreamEvents stale (arrayLen feedIds) gen)

/-!
Client stream consumer: the state touched by `handleStreamEvent` in
`useNewsletterStream`, and the fold it performs over decoded events.  An
`error` event is thrown to the caller (modelled with `Except`).
-/

/-- Loading phases (`LoadingPhase` in the source). -/
inductive LoadingPhase where
  | idle
  | refreshing
  | analyzing
  | generating
  | complete
deriving DecidableEq

/-- The client state updated by the stream: phase, latest newsletter snapshot,
latched article count, feed count, and the article-count ref used for the
final toast. -/
structure StreamState where
  loadingPhase : LoadingPhase
  newsletter : Option Json
  articlesAnalyzed : Int
  feedCount : Int
  articleCountRef : Int

/-- The state set up at the start of each `generate` call. -/
def initialStreamState : StreamState :=
  { loadingPhase := LoadingPhase.idle
    newsletter := none
    articlesAnalyzed := 0
    feedCount := 0
    articleCountRef := 0 }

/-- `handleStreamEvent`: one step of the client reducer.  `partial` replaces
the stored newsletter wholesale; `metadata` latches the article count;
`complete` only changes the phase; `error` throws. -/
def handleStreamEvent (s : StreamState) : AnyStreamEvent → Except (List Char) StreamState
  | .refreshing n => Except.ok { s with loadingPhase := .refreshing, feedCount := n }
  | .analyzing n => Except.ok { s with loadingPhase := .analyzing, feedCount := n }
  | .metadata n =>
      Except.ok { s with articleCountRef := n, articlesAnalyzed := n, loadingPhase := .generating }
  | .part d => Except.ok { s with newsletter := some d, loadingPhase := .generating }
  | .complete => Except.ok { s with loadingPhase := .complete }
  | .error msg => Except.error msg

/-- Left fold of the reducer over an ordered event list, stopping at a thrown
`error`. -/
def foldStreamEvents (s : StreamState) : List AnyStreamEvent → Except (List Char) StreamState
  | [] => Except.ok s
  | e :: es =>
    match handleStreamEvent s e with
    | Except.ok s2 => foldStreamEvents s2 es
    | Except.error m => Except.error m

/-- A character list that does not start with a decimal digit (the shape of
every remainder following a serialized number inside a JSON document). -/
def noLeadDigit (cs : List Char) : Prop :=
  ∀ c, cs.head? = some c → c.isDigit = false

/-! Lemmas about number serialization. -/

theorem digitChar_isDigit (n : Nat) : (digitChar n).isDigit = true := by
  unfold digitChar; split <;> decide

theorem digitVal_digitChar (n : Nat) (h : n < 10) : digitVal (digitChar n) = n := by
  interval_cases n <;> decide

theorem natToChars_ne_nil (n : Nat) : natToChars n ≠ [] := by
  unfold natToChars; split <;> simp

theorem mem_natToChars_isDigit (n : Nat) : ∀ c ∈ natToChars n, c.isDigit = true := by
  induction n using Nat.strong_induction_on with
  | _ n ih =>
    intro c hc
    have hdiv : n / 10 < n ∨ n < 10 := by
      rcases Nat.lt_or_ge n 10 with hn | hn
      · exact Or.inr hn
      · exact Or.inl (Nat.div_lt_self (by omega) (by omega))
    unfold natToChars at hc
    split at hc
    · simp at hc
      subst hc
      exact digitChar_isDigit n
    · next hn =>
      rcases List.mem_append.mp hc with h | h
      · rcases hdiv with hdiv | hdiv
        · exact ih _ hdiv c h
        · exact absurd hdiv hn
      · simp at h
        subst h
        exact digitChar_isDigit (n % 10)

theorem foldl_digits_natToChars (n : Nat) : ∀ acc,
    List.foldl (fun a c => 10 * a + digitVal c) acc (natToChars n) =
      acc * 10 ^ (natToChars n).length + n := by
  induction n using Nat.strong_induction_on with
  | _ n ih =>
    intro acc
    unfold natToChars
    split
    · next h =>
      simp [List.foldl, digitVal_digitChar n h]
      ring
    · next h =>
      rw [List.foldl_append,
        ih (n / 10) (Nat.div_lt_self (by omega) (by omega)) acc]
      simp [List.foldl, digitVal_digitChar (n % 10) (Nat.mod_lt _ (by omega))]
      have hsplit : 10 * (n / 10) + n % 10 = n := by omega
      calc 10 * (acc * 10 ^ (natToChars (n / 10)).length + n / 10) + n % 10
          = acc * (10 ^ (natToChars (n / 10)).length * 10) + (10 * (n / 10) + n % 10) := by ring
        _ = acc * 10 ^ ((natToChars (n / 10)).length + 1) + n := by rw [hsplit, pow_succ]

theorem digitsVal_natToChars (n : Nat) : digitsVal (natToChars n) = n := by
  have := foldl_digits_natToChars n 0
  simpa [digitsVal] using this

theorem grabDigits_append (digs suffix : List Char) (hds : ∀ c ∈ digs, c.isDigit = true)
    (hsuf : noLeadDigit suffix) : grabDigits (digs ++ suffix) = (digs, suffix) := by
  induction digs with
  | nil =>
    simp only [List.nil_append]
    cases suffix with
    | nil => rfl
    | cons c cs => simp [grabDigits, hsuf c rfl]
  | cons d digs ih =>
    have hd : d.isDigit = true := hds d (by simp)
    simp only [List.cons_append, grabDigits, hd, if_true, List.append_eq]
    rw [ih (fun c hc => hds c (by simp [hc]))]

theorem parseNum_intToChars (n : Int) (rest : List Char) (hrest : noLeadDigit rest) :
    parseNum (intToChars n ++ rest) = some (Json.num n, rest) := by
  obtain ⟨d, ds, hd⟩ := List.exists_cons_of_ne_nil (natToChars_ne_nil n.natAbs)
  have htake : grabDigits (natToChars n.natAbs ++ rest) = (d :: ds, rest) := by
    rw [grabDigits_append _ _ (mem_natToChars_isDigit _) hrest, hd]
  have hvn : digitsVal (d :: ds) = n.natAbs := by rw [← hd, digitsVal_natToChars]
  unfold intToChars
  split
  · next hneg =>
    show parseNum ('-' :: (natToChars n.natAbs ++ rest)) = _
    simp [parseNum, htake, hvn, Int.ofNat_natAbs_of_nonpos (le_of_lt hneg)]
  · next hpos =>
    have hdig : d.isDigit = true := mem_natToChars_isDigit n.natAbs d (by rw [hd]; simp)
    have hne : d ≠ '-' := by
      intro h
      rw [h] at hdig
      simp [Char.isDigit] at hdig
    rw [hd] at htake ⊢
    rw [List.cons_append] at htake
    simp [parseNum, hne, htake, hvn, Int.natAbs_of_nonneg (not_lt.mp hpos)]

/-! Lemmas about string escaping. -/

theorem hexVal_hexDigitChar (n : Nat) (h : n < 16) : hexVal (hexDigitChar n) = some n := by
  interval_cases n <;> decide

theorem parseStringBody_quote (rest : List Char) :
    parseStringBody ('"' :: rest) = some ([], rest) := by
  conv_lhs => rw [parseStringBody.eq_def]
  simp

theorem parseStringBody_raw (c : Char) (rest : List Char) (h1 : c ≠ '"') (h2 : c ≠ '\\') :
    parseStringBody (c :: rest) = (parseStringBody rest).map (fun p => (c :: p.1, p.2)) := by
  conv_lhs => rw [parseStringBody.eq_def]
  simp [h1, h2]

theorem parseStringBody_esc (e u : Char) (rest : List Char) (he : e ≠ 'u')
    (hu : unescChar e = some u) :
    parseStringBody ('\\' :: e :: rest) = (parseStringBody rest).map (fun p => (u :: p.1, p.2)) := by
  conv_lhs => rw [parseStringBody.eq_def]
  simp [he, hu]

theorem parseStringBody_uEsc (h1 h2 h3 h4 : Char) (rest : List Char) (a b c4 d : Nat)
    (ha : hexVal h1 = some a) (hb : hexVal h2 = some b) (hc : hexVal h3 = some c4)
    (hd : hexVal h4 = some d) :
    parseStringBody ('\\' :: 'u' :: h1 :: h2 :: h3 :: h4 :: rest) =
      (parseStringBody rest).map
        (fun p => (Char.ofNat (((a * 16 + b) * 16 + c4) * 16 + d) :: p.1, p.2)) := by
  conv_lhs => rw [parseStringBody.eq_def]
  simp [ha, hb, hc, hd]

theorem parseStringBody_escBody (s : List Char) : ∀ rest,
    parseStringBody (escBody s ++ '"' :: rest) = some (s, rest) := by
  induction s with
  | nil => intro rest; simp [escBody, parseStringBody_quote]
  | cons c cs ih =>
    intro rest
    show parseStringBody ((escChar c ++ escBody cs) ++ '"' :: rest) = _
    rw [List.append_assoc]
    unfold escChar
    split_ifs with h1 h2 h3 h4 h5 h6 h7 h8
    · subst h1
      simp only [List.cons_append, List.nil_append]
      rw [parseStringBody_esc '"' '"' _ (by decide) (by decide), ih rest]
      rfl
    · subst h2
      simp only [List.cons_append, List.nil_append]
      rw [parseStringBody_esc '\\' '\\' _ (by decide) (by decide), ih rest]
      rfl
    · subst h3
      simp only [List.cons_append, List.nil_append]
      rw [parseStringBody_esc 'n' '\n' _ (by decide) (by decide), ih rest]
      rfl
    · subst h4
      simp only [List.cons_append, List.nil_append]
      rw [parseStringBody_esc 'r' '\r' _ (by decide) (by decide), ih rest]
      rfl
    · subst h5
      simp only [List.cons_append, List.nil_append]
      rw [parseStringBody_esc 't' '\t' _ (by decide) (by decide), ih rest]
      rfl
    · subst h6
      simp only [List.cons_append, List.nil_append]
      rw [parseStringBody_esc 'b' '\x08' _ (by decide) (by decide), ih rest]
      rfl
    · subst h7
      simp only [List.cons_append, List.nil_append]
      rw [parseStringBody_esc 'f' '\x0C' _ (by decide) (by decide), ih rest]
      rfl
    · have hhi : c.toNat / 16 < 16 := by omega
      have hlo : c.toNat % 16 < 16 := by omega
      simp only [uEscape, List.cons_append, List.nil_append]
      rw [parseStringBody_uEsc '0' '0' _ _ _ 0 0 (c.toNat / 16) (c.toNat % 16)
        (by decide) (by decide) (hexVal_hexDigitChar _ hhi) (hexVal_hexDigitChar _ hlo), ih rest]
      have hval : c.toNat / 16 * 16 + c.toNat % 16 = c.toNat := by omega
      simp [hval, Char.ofNat_toNat]
    · simp only [List.cons_append, List.nil_append]
      rw [parseStringBody_raw c _ h1 h2, ih rest]
      rfl

theorem noLeadDigit_nil : noLeadDigit [] := by intro c h; simp at h

theorem noLeadDigit_cons (c : Char) (t : List Char) (h : c.isDigit = false) :
    noLeadDigit (c :: t) := by
  intro x hx
  simp at hx
  rw [← hx]
  exact h

/-! Equation lemmas for the serializer. -/

theorem Json.stringify_null : Json.stringify Json.null = ['n', 'u', 'l', 'l'] := by
  unfold Json.stringify; rfl

theorem Json.stringify_true : Json.stringify (Json.bool true) = ['t', 'r', 'u', 'e'] := by
  unfold Json.stringify; rfl

theorem Json.stringify_false : Json.stringify (Json.bool false) = ['f', 'a', 'l', 's', 'e'] := by
  unfold Json.stringify; rfl

theorem Json.stringify_num (n : Int) : Json.stringify (Json.num n) = intToChars n := by
  unfold Json.stringify; rfl

theorem Json.stringify_str (s : List Char) :
    Json.stringify (Json.str s) = '"' :: escBody s ++ ['"'] := by
  unfold Json.stringify; rfl

theorem Json.stringify_arr_nil : Json.stringify (Json.arr []) = ['[', ']'] := by
  unfold Json.stringify; rfl

theorem Json.stringify_arr_cons (v : Json) (vs : List Json) :
    Json.stringify (Json.arr (v :: vs)) = '[' :: Json.stringifyElems v vs ++ [']'] := by
  unfold Json.stringify; rfl

theorem Json.stringify_obj_nil : Json.stringify (Json.obj []) = ['{', '}'] := by
  unfold Json.stringify; rfl

theorem Json.stringify_obj_cons (f : List Char × Json) (fs : List (List Char × Json)) :
    Json.stringify (Json.obj (f :: fs)) = '{' :: Json.stringifyFields f fs ++ ['}'] := by
  unfold Json.stringify; rfl

theorem Json.stringifyElems_nil (v : Json) : Json.stringifyElems v [] = Json.stringify v := by
  unfold Json.stringifyElems; rfl

theorem Json.stringifyElems_cons (v w : Json) (ws : List Json) :
    Json.stringifyElems v (w :: ws) = Json.stringify v ++ ',' :: Json.stringifyElems w ws := by
  conv_lhs => rw [Json.stringifyElems.eq_def]

theorem Json.stringifyFields_nil (k : List Char) (v : Json) :
    Json.stringifyFields (k, v) [] = '"' :: escBody k ++ '"' :: ':' :: Json.stringify v := by
  unfold Json.stringifyFields; rfl

theorem Json.stringifyFields_cons (k : List Char) (v : Json) (f : List Char × Json)
    (fs : List (List Char × Json)) :
    Json.stringifyFields (k, v) (f :: fs) =
      ('"' :: escBody k ++ '"' :: ':' :: Json.stringify v) ++ ',' :: Json.stringifyFields f fs := by
  conv_lhs => rw [Json.stringifyFields.eq_def]

theorem Json.stringify_ne_nil (j : Json) : Json.stringify j ≠ [] := by
  cases j with
  | null => simp [Json.stringify_null]
  | bool b => cases b <;> simp [Json.stringify_true, Json.stringify_false]
  | num n =>
    rw [Json.stringify_num]
    unfold intToChars
    split
    · simp
    · exact natToChars_ne_nil _
  | str s => simp [Json.stringify_str]
  | arr xs => cases xs <;> simp [Json.stringify_arr_nil, Json.stringify_arr_cons]
  | obj fs => cases fs <;> simp [Json.stringify_obj_nil, Json.stringify_obj_cons]

theorem Json.stringify_head (j : Json) (c : Char) (t : List Char)
    (h : Json.stringify j = c :: t) :
    c = '-' ∨ c.isDigit = true ∨ c = 'n' ∨ c = 't' ∨ c = 'f' ∨ c = '"' ∨ c = '[' ∨ c = '{' := by
  cases j with
  | null => rw [Json.stringify_null] at h; injection h with h1 _; subst h1; tauto
  | bool b =>
    cases b
    · rw [Json.stringify_false] at h; injection h with h1 _; subst h1; tauto
    · rw [Json.stringify_true] at h; injection h with h1 _; subst h1; tauto
  | num n =>
    rw [Json.stringify_num] at h
    unfold intToChars at h
    split at h
    · injection h with h1 _; subst h1; tauto
    · right; left
      have : c ∈ natToChars n.natAbs := by rw [h]; simp
      exact mem_natToChars_isDigit _ c this
  | str s => rw [Json.stringify_str] at h; injection h with h1 _; subst h1; tauto
  | arr xs =>
    cases xs with
    | nil => rw [Json.stringify_arr_nil] at h; injection h with h1 _; subst h1; tauto
    | cons v vs => rw [Json.stringify_arr_cons] at h; injection h with h1 _; subst h1; tauto
  | obj fs =>
    cases fs with
    | nil => rw [Json.stringify_obj_nil] at h; injection h with h1 _; subst h1; tauto
    | cons f fs => rw [Json.stringify_obj_cons] at h; injection h with h1 _; subst h1; tauto

theorem Json.stringify_head_ne (j : Json) (c : Char) (t : List Char)
    (h : Json.stringify j = c :: t) : c ≠ ']' ∧ c ≠ '}' := by
  rcases Json.stringify_head j c t h with h1 | h1 | h1 | h1 | h1 | h1 | h1 | h1
  all_goals first
    | (subst h1; exact ⟨by decide, by decide⟩)
    | (constructor <;> (intro hc; rw [hc] at h1; simp [Char.isDigit] at h1))

/-! Step lemmas for the fuelled parser. -/

theorem parseValue_succ_cons (fuel : Nat) (c : Char) (cs : List Char) :
    parseValue (fuel + 1) (c :: cs) =
      (if c = '-' ∨ c.isDigit then parseNum (c :: cs)
       else if c = '"' then (parseStringBody cs).map (fun p => (Json.str p.1, p.2))
       else if c = '[' then (parseElems fuel cs).map (fun p => (Json.arr p.1, p.2))
       else if c = '{' then (parseFields fuel cs).map (fun p => (Json.obj p.1, p.2))
       else if c = 'n' then
         match cs with
         | 'u' :: 'l' :: 'l' :: rest => some (Json.null, rest)
         | _ => none
       else if c = 't' then
         match cs with
         | 'r' :: 'u' :: 'e' :: rest => some (Json.bool true, rest)
         | _ => none
       else if c = 'f' then
         match cs with
         | 'a' :: 'l' :: 's' :: 'e' :: rest => some (Json.bool false, rest)
         | _ => none
       else none) := by
  conv_lhs => rw [parseValue.eq_def]

theorem parseElems_succ_cons (fuel : Nat) (c : Char) (cs : List Char) :
    parseElems (fuel + 1) (c :: cs) =
      (if c = ']' then some ([], cs)
       else
         match parseValue fuel (c :: cs) with
         | some (v, ',' :: rest) => (parseElems fuel rest).map (fun p => (v :: p.1, p.2))
         | some (v, ']' :: rest) => some ([v], rest)
         | _ => none) := by
  conv_lhs => rw [parseElems.eq_def]

theorem parseFields_succ_cons (fuel : Nat) (c : Char) (cs : List Char) :
    parseFields (fuel + 1) (c :: cs) =
      (if c = '}' then some ([], cs)
       else if c = '"' then
         match parseStringBody cs with
         | some (k, ':' :: rest) =>
           match parseValue fuel rest with
           | some (v, ',' :: rest2) => (parseFields fuel rest2).map (fun p => ((k, v) :: p.1, p.2))
           | some (v, '}' :: rest2) => some ([(k, v)], rest2)
           | _ => none
         | _ => none
       else none) := by
  conv_lhs => rw [parseFields.eq_def]

theorem parse_stringify_aux (fuel : Nat) :
    (∀ j rest, noLeadDigit rest → (Json.stringify j).length ≤ fuel →
      parseValue fuel (Json.stringify j ++ rest) = some (j, rest)) ∧
    (∀ v vs rest, (Json.stringifyElems v vs).length + 1 ≤ fuel →
      parseElems fuel (Json.stringifyElems v vs ++ ']' :: rest) = some (v :: vs, rest)) ∧
    (∀ f fs rest, (Json.stringifyFields f fs).length + 1 ≤ fuel →
      parseFields fuel (Json.stringifyFields f fs ++ '}' :: rest) = some (f :: fs, rest)) := by
  induction fuel with
  | zero =>
    refine ⟨?_, ?_, ?_⟩
    · intro j rest _ hlen
      have hpos : 0 < (Json.stringify j).length := List.length_pos.mpr (Json.stringify_ne_nil j)
      omega
    · intro v vs rest hlen; omega
    · intro f fs rest hlen; omega
  | succ fuel ih =>
    obtain ⟨ihV, ihE, ihF⟩ := ih
    refine ⟨?_, ?_, ?_⟩
    · intro j rest hrest hlen
      cases j with
      | null =>
        rw [Json.stringify_null]
        simp only [List.cons_append, List.nil_append]
        rw [parseValue_succ_cons, if_neg (by decide), if_neg (by decide), if_neg (by decide),
          if_neg (by decide), if_pos rfl]
        rfl
      | bool b =>
        cases b
        · rw [Json.stringify_false]
          simp only [List.cons_append, List.nil_append]
          rw [parseValue_succ_cons, if_neg (by decide), if_neg (by decide), if_neg (by decide),
            if_neg (by decide), if_neg (by decide), if_neg (by decide), if_pos rfl]
          rfl
        · rw [Json.stringify_true]
          simp only [List.cons_append, List.nil_append]
          rw [parseValue_succ_cons, if_neg (by decide), if_neg (by decide), if_neg (by decide),
            if_neg (by decide), if_neg (by decide), if_pos rfl]
          rfl
      | num n =>
        rw [Json.stringify_num]
        have hpn := parseNum_intToChars n rest hrest
        by_cases hneg : n < 0
        · have hit : intToChars n = '-' :: natToChars n.natAbs := by
            unfold intToChars; rw [if_pos hneg]
          rw [hit, List.cons_append] at hpn ⊢
          rw [parseValue_succ_cons, if_pos (Or.inl rfl)]
          exact hpn
        · have hit : intToChars n = natToChars n.natAbs := by
            unfold intToChars; rw [if_neg hneg]
          obtain ⟨d, ds, hd⟩ := List.exists_cons_of_ne_nil (natToChars_ne_nil n.natAbs)
          have hdig : d.isDigit = true := mem_natToChars_isDigit n.natAbs d (by rw [hd]; simp)
          rw [hit, hd, List.cons_append] at hpn ⊢
          rw [parseValue_succ_cons, if_pos (Or.inr hdig)]
          exact hpn
      | str s =>
        rw [Json.stringify_str]
        simp only [List.cons_append, List.append_assoc, List.singleton_append, List.nil_append]
        rw [parseValue_succ_cons, if_neg (by decide), if_pos rfl,
          parseStringBody_escBody s rest]
        rfl
      | arr xs =>
        cases xs with
        | nil =>
          rw [Json.stringify_arr_nil] at hlen ⊢
          simp only [List.length_cons, List.length_nil] at hlen
          obtain ⟨g, rfl⟩ : ∃ g, fuel = g + 1 := ⟨fuel - 1, by omega⟩
          simp only [List.cons_append, List.nil_append]
          rw [parseValue_succ_cons, if_neg (by decide), if_neg (by decide), if_pos rfl,
            parseElems_succ_cons, if_pos rfl]
          rfl
        | cons v vs =>
          rw [Json.stringify_arr_cons] at hlen ⊢
          simp only [List.length_cons, List.length_append, List.length_nil] at hlen
          simp only [List.cons_append, List.append_assoc, List.singleton_append, List.nil_append]
          rw [parseValue_succ_cons, if_neg (by decide), if_neg (by decide), if_pos rfl,
            ihE v vs rest (by omega)]
          rfl
      | obj fs =>
        cases fs with
        | nil =>
          rw [Json.stringify_obj_nil] at hlen ⊢
          simp only [List.length_cons, List.length_nil] at hlen
          obtain ⟨g, rfl⟩ : ∃ g, fuel = g + 1 := ⟨fuel - 1, by omega⟩
          simp only [List.cons_append, List.nil_append]
          rw [parseValue_succ_cons, if_neg (by decide), if_neg (by decide), if_neg (by decide),
            if_pos rfl, parseFields_succ_cons, if_pos rfl]
          rfl
        | cons f fs =>
          rw [Json.stringify_obj_cons] at hlen ⊢
          simp only [List.length_cons, List.length_append, List.length_nil] at hlen
          simp only [List.cons_append, List.append_assoc, List.singleton_append, List.nil_append]
          rw [parseValue_succ_cons, if_neg (by decide), if_neg (by decide), if_neg (by decide),
            if_pos rfl, ihF f fs rest (by omega)]
          rfl
    · intro v vs rest hlen
      obtain ⟨c, t, hv⟩ := List.exists_cons_of_ne_nil (Json.stringify_ne_nil v)
      have hne : c ≠ ']' := (Json.stringify_head_ne v c t hv).1
      have hsv : 0 < (Json.stringify v).length := List.length_pos.mpr (Json.stringify_ne_nil v)
      cases vs with
      | nil =>
        rw [Json.stringifyElems_nil] at hlen ⊢
        have hpv : parseValue fuel (Json.stringify v ++ ']' :: rest) = some (v, ']' :: rest) :=
          ihV v (']' :: rest) (noLeadDigit_cons _ _ (by decide)) (by omega)
        rw [hv, List.cons_append] at hpv ⊢
        rw [parseElems_succ_cons, if_neg hne]
        simp [hpv]
      | cons w ws =>
        rw [Json.stringifyElems_cons] at hlen ⊢
        simp only [List.length_append, List.length_cons] at hlen
        have hpv : parseValue fuel
            (Json.stringify v ++ ',' :: (Json.stringifyElems w ws ++ ']' :: rest)) =
            some (v, ',' :: (Json.stringifyElems w ws ++ ']' :: rest)) :=
          ihV v _ (noLeadDigit_cons _ _ (by decide)) (by omega)
        have hpe : parseElems fuel (Json.stringifyElems w ws ++ ']' :: rest) =
            some (w :: ws, rest) := ihE w ws rest (by omega)
        simp only [List.append_assoc, List.cons_append]
        rw [hv, List.cons_append] at hpv ⊢
        rw [parseElems_succ_cons, if_neg hne]
        simp [hpv, hpe]
    · intro f fs rest hlen
      obtain ⟨k, v⟩ := f
      have hsv : 0 < (Json.stringify v).length := List.length_pos.mpr (Json.stringify_ne_nil v)
      cases fs with
      | nil =>
        rw [Json.stringifyFields_nil] at hlen ⊢
        simp only [List.length_append, List.length_cons] at hlen
        have hpv : parseValue fuel (Json.stringify v ++ '}' :: rest) = some (v, '}' :: rest) :=
          ihV v ('}' :: rest) (noLeadDigit_cons _ _ (by decide)) (by omega)
        have hsb := parseStringBody_escBody k (':' :: (Json.stringify v ++ '}' :: rest))
        simp only [List.cons_append, List.append_assoc]
        rw [parseFields_succ_cons, if_neg (by decide), if_pos rfl]
        simp [hsb, hpv]
      | cons f2 fs2 =>
        rw [Json.stringifyFields_cons] at hlen ⊢
        simp only [List.length_append, List.length_cons] at hlen
        have hpv : parseValue fuel
            (Json.stringify v ++ ',' :: (Json.stringifyFields f2 fs2 ++ '}' :: rest)) =
            some (v, ',' :: (Json.stringifyFields f2 fs2 ++ '}' :: rest)) :=
          ihV v _ (noLeadDigit_cons _ _ (by decide)) (by omega)
        have hpf : parseFields fuel (Json.stringifyFields f2 fs2 ++ '}' :: rest) =
            some (f2 :: fs2, rest) := ihF f2 fs2 rest (by omega)
        have hsb := parseStringBody_escBody k
          (':' :: (Json.stringify v ++ ',' :: (Json.stringifyFields f2 fs2 ++ '}' :: rest)))
        simp only [List.cons_append, List.append_assoc]
        rw [parseFields_succ_cons, if_neg (by decide), if_pos rfl]
        simp [hsb, hpv, hpf]

/-- Round trip of the JSON codec: parsing a serialized value recovers it. -/
theorem Json.parse_stringify (j : Json) : Json.parse (Json.stringify j) = some j := by
  have h := (parse_stringify_aux (Json.stringify j).length).1 j [] noLeadDigit_nil (le_refl _)
  rw [List.append_nil] at h
  unfold Json.parse
  rw [h]

/-! Serialized JSON is newline-free: the chunk parser's line splitting can
never cut through an encoded event except at a fragment boundary. -/

theorem escChar_no_lf (c : Char) : '\n' ∉ escChar c := by
  unfold escChar
  split_ifs with h1 h2 h3 h4 h5 h6 h7 h8
  · decide
  · decide
  · decide
  · decide
  · decide
  · decide
  · decide
  · intro hmem
    simp only [uEscape, List.mem_cons, List.not_mem_nil, or_false] at hmem
    rcases hmem with h | h | h | h | h | h
    · exact absurd h (by decide)
    · exact absurd h (by decide)
    · exact absurd h (by decide)
    · exact absurd h (by decide)
    · have : ('\n').isDigit = false := by decide
      rw [h] at this
      have h16 : c.toNat / 16 < 16 := by omega
      have := digitChar_isDigit (c.toNat / 16)
      revert this
      have hh : hexDigitChar (c.toNat / 16) ≠ '\n' := by
        unfold hexDigitChar; split <;> decide
      exact fun _ => hh h.symm
    · have hh : hexDigitChar (c.toNat % 16) ≠ '\n' := by
        unfold hexDigitChar; split <;> decide
      exact hh h.symm
  · intro hmem
    simp only [List.mem_cons, List.not_mem_nil, or_false] at hmem
    rw [← hmem] at h8
    exact h8 (by decide)

theorem escBody_no_lf (s : List Char) : '\n' ∉ escBody s := by
  induction s with
  | nil => simp [escBody]
  | cons c cs ih =>
    intro h
    rcases List.mem_append.mp h with h | h
    · exact escChar_no_lf c h
    · exact ih h

theorem natToChars_no_lf (n : Nat) : '\n' ∉ natToChars n := by
  intro h
  have := mem_natToChars_isDigit n '\n' h
  simp [Char.isDigit] at this

theorem intToChars_no_lf (n : Int) : '\n' ∉ intToChars n := by
  unfold intToChars
  split
  · intro h
    rcases List.mem_cons.mp h with h | h
    · exact absurd h (by decide)
    · exact natToChars_no_lf _ h
  · exact natToChars_no_lf _

theorem stringify_no_lf_aux (n : Nat) :
    (∀ j : Json, sizeOf j ≤ n → '\n' ∉ Json.stringify j) ∧
    (∀ (v : Json) (vs : List Json), sizeOf v + sizeOf vs ≤ n →
      '\n' ∉ Json.stringifyElems v vs) ∧
    (∀ (f : List Char × Json) (fs : List (List Char × Json)), sizeOf f + sizeOf fs ≤ n →
      '\n' ∉ Json.stringifyFields f fs) := by
  induction n with
  | zero =>
    refine ⟨?_, ?_, ?_⟩
    · intro j h; exfalso; cases j <;> simp at h
    · intro v vs h; exfalso; cases v <;> simp at h
    · intro f fs h; exfalso; obtain ⟨k, v⟩ := f; cases v <;> simp at h
  | succ n ihn =>
    obtain ⟨ihJ, ihE, ihF⟩ := ihn
    refine ⟨?_, ?_, ?_⟩
    · intro j hsz
      cases j with
      | null => rw [Json.stringify_null]; decide
      | bool b => cases b <;> simp only [Json.stringify_true, Json.stringify_false] <;> decide
      | num m => rw [Json.stringify_num]; exact intToChars_no_lf m
      | str s =>
        rw [Json.stringify_str]
        intro h
        rcases List.mem_cons.mp h with h | h
        · exact absurd h (by decide)
        · rcases List.mem_append.mp h with h | h
          · exact escBody_no_lf s h
          · simp at h
      | arr xs =>
        cases xs with
        | nil => rw [Json.stringify_arr_nil]; decide
        | cons v vs =>
          rw [Json.stringify_arr_cons]
          intro h
          rcases List.mem_cons.mp h with h | h
          · exact absurd h (by decide)
          · rcases List.mem_append.mp h with h | h
            · exact ihE v vs (by simp at hsz; omega) h
            · simp at h
      | obj fs =>
        cases fs with
        | nil => rw [Json.stringify_obj_nil]; decide
        | cons f fs =>
          rw [Json.stringify_obj_cons]
          intro h
          rcases List.mem_cons.mp h with h | h
          · exact absurd h (by decide)
          · rcases List.mem_append.mp h with h | h
            · exact ihF f fs (by simp at hsz ⊢; omega) h
            · simp at h
    · intro v vs hsz
      cases vs with
      | nil =>
        rw [Json.stringifyElems_nil]
        exact ihJ v (by simp at hsz; omega)
      | cons w ws =>
        rw [Json.stringifyElems_cons]
        intro h
        rcases List.mem_append.mp h with h | h
        · exact ihJ v (by simp at hsz; omega) h
        · rcases List.mem_cons.mp h with h | h
          · exact absurd h (by decide)
          · exact ihE w ws (by simp at hsz; omega) h
    · intro f fs hsz
      obtain ⟨k, v⟩ := f
      cases fs with
      | nil =>
        rw [Json.stringifyFields_nil]
        intro h
        rcases List.mem_cons.mp h with h | h
        · exact absurd h (by decide)
        · rcases List.mem_append.mp h with h | h
          · exact escBody_no_lf k h
          · rcases List.mem_cons.mp h with h | h
            · exact absurd h (by decide)
            · rcases List.mem_cons.mp h with h | h
              · exact absurd h (by decide)
              · exact ihJ v (by simp at hsz; omega) h
      | cons f2 fs2 =>
        rw [Json.stringifyFields_cons]
        intro h
        rcases List.mem_append.mp h with h | h
        · rcases List.mem_cons.mp h with h | h
          · exact absurd h (by decide)
          · rcases List.mem_append.mp h with h | h
            · exact escBody_no_lf k h
            · rcases List.mem_cons.mp h with h | h
              · exact absurd h (by decide)
              · rcases List.mem_cons.mp h with h | h
                · exact absurd h (by decide)
                · exact ihJ v (by simp at hsz; omega) h
        · rcases List.mem_cons.mp h with h | h
          · exact absurd h (by decide)
          · exact ihF f2 fs2 (by simp at hsz; omega) h

theorem Json.stringify_no_lf (j : Json) : '\n' ∉ Json.stringify j :=
  (stringify_no_lf_aux (sizeOf j)).1 j (le_refl _)

/-! Chunk splitting lemmas. -/

theorem splitOnChar_no_sep (sep : Char) (cs : List Char) (h : sep ∉ cs) :
    splitOnChar sep cs = [cs] := by
  induction cs with
  | nil => rfl
  | cons c cs ih =>
    simp only [List.mem_cons, not_or] at h
    obtain ⟨h1, h2⟩ := h
    have hc : ¬c = sep := fun hh => h1 hh.symm
    simp [splitOnChar, hc, ih h2]

theorem splitOnChar_append (sep : Char) (line rest : List Char) (h : sep ∉ line) :
    splitOnChar sep (line ++ sep :: rest) = line :: splitOnChar sep rest := by
  induction line with
  | nil => simp [splitOnChar]
  | cons c cs ih =>
    simp only [List.mem_cons, not_or] at h
    obtain ⟨h1, h2⟩ := h
    have hc : ¬c = sep := fun hh => h1 hh.symm
    simp only [List.cons_append, splitOnChar, hc, if_false, List.append_eq]
    rw [ih h2]

/-! SSE codec lemmas. -/

theorem parseSSELine_data (cs : List Char) : parseSSELine (dataHdr ++ cs) = Json.parse cs := rfl

theorem no_lf_encodedLine (j : Json) : '\n' ∉ dataHdr ++ Json.stringify j := by
  intro h
  rcases List.mem_append.mp h with h | h
  · exact absurd h (by decide)
  · exact Json.stringify_no_lf j h

theorem truthy_toJson (e : AnyStreamEvent) : truthy (toJson e) = true := by
  cases e <;> rfl

theorem parseSSEChunk_cons_event (e : AnyStreamEvent) (s : List Char) :
    parseSSEChunk (encodeSSE e ++ s) = toJson e :: parseSSEChunk s := by
  unfold parseSSEChunk encodeSSE
  have heq : (dataHdr ++ Json.stringify (toJson e) ++ ['\n', '\n']) ++ s
      = (dataHdr ++ Json.stringify (toJson e)) ++ '\n' :: ('\n' :: s) := by simp
  rw [heq, splitOnChar_append _ _ _ (no_lf_encodedLine (toJson e))]
  have h2 : splitOnChar '\n' ('\n' :: s) = [] :: splitOnChar '\n' s := by
    simp [splitOnChar]
  rw [h2]
  have h3 : parseSSELine (dataHdr ++ Json.stringify (toJson e)) = some (toJson e) := by
    rw [parseSSELine_data, Json.parse_stringify]
  simp [List.filterMap_cons, h3, truthy_toJson]
  rfl

theorem parseSSEChunk_encodeStream (es : List AnyStreamEvent) :
    parseSSEChunk (encodeSSEStream es) = es.map toJson := by
  induction es with
  | nil => rfl
  | cons e es ih =>
    show parseSSEChunk (encodeSSE e ++ encodeSSEStream es) = _
    rw [parseSSEChunk_cons_event, ih]
    rfl

theorem toJson_inj (e e' : AnyStreamEvent) (h : toJson e = toJson e') : e = e' := by
  cases e <;> cases e' <;> simp [toJson] at h ⊢ <;> first | exact h | exact absurd h (by decide)

/-! Staleness evaluator lemmas. -/

theorem maxTime_eq_none_iff (ts : List Int) : maxTime ts = none ↔ ts = [] := by
  cases ts with
  | nil => simp [maxTime]
  | cons t ts => cases hm : maxTime ts <;> simp [maxTime, hm]

theorem maxTime_spec (ts : List Int) (m : Int) (h : maxTime ts = some m) :
    m ∈ ts ∧ ∀ u ∈ ts, u ≤ m := by
  induction ts generalizing m with
  | nil => simp [maxTime] at h
  | cons t ts ih =>
    cases hm : maxTime ts with
    | none =>
      simp [maxTime, hm] at h
      subst h
      have hts : ts = [] := (maxTime_eq_none_iff ts).mp hm
      subst hts
      simp
    | some m2 =>
      simp [maxTime, hm] at h
      obtain ⟨hmem, hub⟩ := ih m2 hm
      subst h
      refine ⟨?_, ?_⟩
      · rcases le_total t m2 with hle | hle
        · rw [max_eq_right hle]; exact List.mem_cons_of_mem _ hmem
        · rw [max_eq_left hle]; exact List.mem_cons_self _ _
      · intro u hu
        rcases List.mem_cons.mp hu with rfl | hu
        · exact le_max_left _ _
        · exact le_trans (hub u hu) (le_max_right _ _)

theorem maxTime_eq_some (ts : List Int) (m : Int) (hmem : m ∈ ts) (hub : ∀ u ∈ ts, u ≤ m) :
    maxTime ts = some m := by
  cases hx : maxTime ts with
  | none =>
    rw [maxTime_eq_none_iff] at hx
    subst hx
    simp at hmem
  | some m2 =>
    obtain ⟨hmem2, hub2⟩ := maxTime_spec ts m2 hx
    rw [le_antisymm (hub2 m hmem) (hub m2 hmem2)]

theorem mostRecentFetch_none_iff (db : List FeedRecord) (url : String) :
    mostRecentFetch db url = none ↔ ∀ g ∈ db, g.url = url → g.lastFetched = none := by
  unfold mostRecentFetch
  rw [maxTime_eq_none_iff, List.filterMap_eq_nil_iff]
  constructor
  · intro h g hg hu
    exact h g (List.mem_filter.mpr ⟨hg, by simpa using hu⟩)
  · intro h g hg
    rw [List.mem_filter] at hg
    exact h g hg.1 (by simpa using hg.2)

theorem mostRecentFetch_some_iff (db : List FeedRecord) (url : String) (t : Int) :
    mostRecentFetch db url = some t ↔
      ((∃ g ∈ db, g.url = url ∧ g.lastFetched = some t) ∧
       ∀ g ∈ db, g.url = url → ∀ u, g.lastFetched = some u → u ≤ t) := by
  unfold mostRecentFetch
  constructor
  · intro h
    obtain ⟨hmem, hub⟩ := maxTime_spec _ t h
    rw [List.mem_filterMap] at hmem
    obtain ⟨g, hg, hgt⟩ := hmem
    rw [List.mem_filter] at hg
    refine ⟨⟨g, hg.1, by simpa using hg.2, hgt⟩, ?_⟩
    intro g2 hg2 hurl u hu
    exact hub u (List.mem_filterMap.mpr ⟨g2, List.mem_filter.mpr ⟨hg2, by simpa using hurl⟩, hu⟩)
  · rintro ⟨⟨g, hg, hurl, ht⟩, hub⟩
    apply maxTime_eq_some
    · exact List.mem_filterMap.mpr ⟨g, List.mem_filter.mpr ⟨hg, by simpa using hurl⟩, ht⟩
    · intro u hu
      rw [List.mem_filterMap] at hu
      obtain ⟨g2, hg2, hgu⟩ := hu
      rw [List.mem_filter] at hg2
      exact hub g2 hg2.1 (by simpa using hg2.2) u hgu

theorem mem_getFeedsToRefresh_iff (db : List FeedRecord) (now : Int) (feedIds : List String)
    (i : String) :
    i ∈ getFeedsToRefresh db now feedIds ↔
      ∃ f ∈ db, f.id ∈ feedIds ∧ f.id = i ∧
        (mostRecentFetch db f.url = none ∨
         ∃ t, mostRecentFetch db f.url = some t ∧ now - t > THREE_HOURS_MS) := by
  unfold getFeedsToRefresh
  rw [List.mem_filterMap]
  constructor
  · rintro ⟨f, hf, hsel⟩
    rw [List.mem_filter] at hf
    obtain ⟨hfdb, hfid⟩ := hf
    cases hm : mostRecentFetch db f.url with
    | none =>
      rw [hm] at hsel
      simp at hsel
      exact ⟨f, hfdb, by simpa using hfid, hsel, Or.inl hm⟩
    | some t =>
      rw [hm] at hsel
      simp at hsel
      obtain ⟨hgt, heq⟩ := hsel
      exact ⟨f, hfdb, by simpa using hfid, heq, Or.inr ⟨t, hm, hgt⟩⟩
  · rintro ⟨f, hfdb, hfid, hfeq, hcond⟩
    refine ⟨f, List.mem_filter.mpr ⟨hfdb, by simpa using hfid⟩, ?_⟩
    rcases hcond with hm | ⟨t, hm, hgt⟩
    · rw [hm]; simpa using hfeq
    · rw [hm]; simp [hgt, hfeq]

/-- Concrete evaluation of the encoded `complete` event. -/
theorem encodeSSE_complete_eval :
    encodeSSE AnyStreamEvent.complete =
      ['d', 'a', 't', 'a', ':', ' ', '\x7b', '"', 't', 'y', 'p', 'e', '"', ':',
       '"', 'c', 'o', 'm', 'p', 'l', 'e', 't', 'e', '"', '\x7d', '\n', '\n'] := by
  unfold encodeSSE dataHdr toJson
  rw [Json.stringify_obj_cons, Json.stringifyFields_nil, Json.stringify_str]
  rfl

/-- C2: encoding any stream event produces the wire text
`"data: " + JSON(event) + "\n\n"`, and the line decoder applied to the encoded
line with the trailing newlines stripped returns the event's JSON value, which
determines the original event uniquely. -/
theorem encodeSSE_roundtrip (e : AnyStreamEvent) :
    ∃ line, encodeSSE e = line ++ ['\n', '\n'] ∧
      line = dataHdr ++ Json.stringify (toJson e) ∧
      parseSSELine line = some (toJson e) ∧
      ∀ e2, toJson e2 = toJson e → e2 = e := by
  refine ⟨dataHdr ++ Json.stringify (toJson e), by simp [encodeSSE], rfl, ?_, ?_⟩
  · rw [parseSSELine_data, Json.parse_stringify]
  · intro e2 h
    exact toJson_inj e2 e h

/-- Witness for C2 at the `complete` event. -/
theorem encodeSSE_roundtrip_witness :
    ∃ line, encodeSSE AnyStreamEvent.complete = line ++ ['\n', '\n'] ∧
      line = dataHdr ++ Json.stringify (toJson AnyStreamEvent.complete) ∧
      parseSSELine line = some (toJson AnyStreamEvent.complete) ∧
      ∀ e2, toJson e2 = toJson AnyStreamEvent.complete → e2 = AnyStreamEvent.complete :=
  encodeSSE_roundtrip AnyStreamEvent.complete

/-- C1 counterexample: the parser keeps no state across chunks, so the encoded
`complete` event split mid-line into two fragments is dropped entirely —
successive calls to `parseSSEChunk` on the two fragments yield no events,
not the original one-event sequence. -/
theorem parseSSEChunk_split_mid_line_drops :
    ((encodeSSE AnyStreamEvent.complete).take 10 ++ (encodeSSE AnyStreamEvent.complete).drop 10
        = encodeSSEStream [AnyStreamEvent.complete]) ∧
    parseSSEChunk ((encodeSSE AnyStreamEvent.complete).take 10) = [] ∧
    parseSSEChunk ((encodeSSE AnyStreamEvent.complete).drop 10) = [] ∧
    ([AnyStreamEvent.complete].map toJson ≠ []) := by
  refine ⟨by simp [encodeSSEStream], ?_, ?_, by simp⟩
  · rw [encodeSSE_complete_eval]
    rfl
  · rw [encodeSSE_complete_eval]
    rfl

/-- C1 (amended): successive stateless calls to `parseSSEChunk`, one per
fragment, reproduce exactly the original event sequence in order whenever
every fragment boundary falls at an encoded-event boundary; the parser keeps
no pending-partial-line state, and (per the counterexample) an event whose
line is split across two fragments is dropped by both calls. -/
theorem parseSSEChunk_event_aligned (ess : List (List AnyStreamEvent)) :
    (ess.map (fun es => parseSSEChunk (encodeSSEStream es))).flatten =
      (ess.flatten).map toJson := by
  simp [parseSSEChunk_encodeStream, List.map_flatten]

/-- C7: the line decoder is total: it returns `none` for every line that does
not begin with the literal prefix `"data: "`, returns `none` (rather than
raising) when the remainder after the prefix fails to parse as JSON, and
returns an event exactly when the remainder parses as JSON. -/
theorem parseSSELine_total (line : List Char) :
    (¬(∃ rest, line = dataHdr ++ rest) → parseSSELine line = none) ∧
    (∀ rest, line = dataHdr ++ rest → Json.parse rest = none → parseSSELine line = none) ∧
    (∀ j, parseSSELine line = some j →
      ∃ rest, line = dataHdr ++ rest ∧ Json.parse rest = some j) := by
  refine ⟨?_, ?_, ?_⟩
  · intro hnot
    unfold parseSSELine
    split
    · next rest => exact absurd ⟨rest, rfl⟩ hnot
    · rfl
  · intro rest heq hparse
    subst heq
    rw [parseSSELine_data, hparse]
  · intro j hj
    unfold parseSSELine at hj
    split at hj
    · next rest => exact ⟨rest, rfl, hj⟩
    · simp at hj

/-- Witness for C7: a line with the prefix whose remainder is not JSON decodes
to `none`. -/
theorem parseSSELine_total_witness :
    "data: @".data = dataHdr ++ "@".data ∧ Json.parse "@".data = none ∧
    parseSSELine "data: @".data = none :=
  ⟨rfl, rfl, (parseSSELine_total "data: @".data).2.1 "@".data rfl rfl⟩

/-- C10 counterexample: the JSON text `0` is valid, and the line decoder
returns it, but the chunk parser's `if (event)` truthiness guard drops the
falsy parsed value, so it is not passed through to the consumer. -/
theorem parseSSEChunk_drops_falsy :
    Json.parse "0".data = some (Json.num 0) ∧
    parseSSELine (dataHdr ++ "0".data) = some (Json.num 0) ∧
    parseSSEChunk (dataHdr ++ "0".data ++ ['\n', '\n']) = [] ∧
    ([] : List Json) ≠ [Json.num 0] := by
  refine ⟨rfl, rfl, rfl, by simp⟩

/-- C10 (amended): any line `"data: " + J` with `J` valid JSON decodes via
`parseSSELine` to the parsed value with no shape validation — no `type` field
is required, and an unknown `type` string is accepted — and `parseSSEChunk`
passes the value through to the consumer unchecked exactly when it is
JavaScript-truthy; a falsy parsed value (null, false, 0 or the empty string)
is dropped by the chunk parser's `if (event)` guard. -/
theorem parseSSELine_unvalidated (s : List Char) (j : Json) (h : Json.parse s = some j) :
    parseSSELine (dataHdr ++ s) = some j ∧
    ('\n' ∉ s → parseSSEChunk (dataHdr ++ s ++ ['\n', '\n']) =
      if truthy j then [j] else []) := by
  constructor
  · rw [parseSSELine_data, h]
  · intro hlf
    unfold parseSSEChunk
    have hlfLine : '\n' ∉ dataHdr ++ s := by
      intro hmem
      rcases List.mem_append.mp hmem with hmem | hmem
      · exact absurd hmem (by decide)
      · exact hlf hmem
    have heq : dataHdr ++ s ++ ['\n', '\n'] = (dataHdr ++ s) ++ '\n' :: ['\n'] := by simp
    rw [heq, splitOnChar_append _ _ _ hlfLine]
    have h2 : splitOnChar '\n' ['\n'] = [[], []] := rfl
    rw [h2]
    have h3 : parseSSELine (dataHdr ++ s) = some j := by rw [parseSSELine_data, h]
    have h4 : parseSSELine ([] : List Char) = none := rfl
    cases htr : truthy j <;> simp [List.filterMap_cons, h3, h4, htr]

/-- Witness for C10 at the truthy shapeless JSON text `42` — no object, no
`type` field — decoded and passed through unchanged. -/
theorem parseSSELine_unvalidated_witness :
    Json.parse "42".data = some (Json.num 42) ∧
    parseSSELine (dataHdr ++ "42".data) = some (Json.num 42) ∧
    ('\n' ∉ "42".data →
      parseSSEChunk (dataHdr ++ "42".data ++ ['\n', '\n']) =
        if truthy (Json.num 42) then [Json.num 42] else []) :=
  ⟨rfl, (parseSSELine_unvalidated "42".data (Json.num 42) rfl).1,
    (parseSSELine_unvalidated "42".data (Json.num 42) rfl).2⟩

/-! Orchestrator lemmas. -/

theorem routeStreamEvents_error (stale : List String) (totalFeeds : Nat) (msg : List Char) :
    routeStreamEvents stale totalFeeds (Except.error msg) =
      (if stale.length > 0 then [AnyStreamEvent.refreshing (stale.length : Int)] else []) ++
      [AnyStreamEvent.analyzing (totalFeeds : Int), AnyStreamEvent.error msg] := by
  unfold routeStreamEvents
  simp

theorem routeStreamEvents_ok (stale : List String) (totalFeeds : Nat) (gs : GenStream)
    (n : Nat) :
    routeStreamEvents stale totalFeeds (Except.ok (gs, n)) =
      (if stale.length > 0 then [AnyStreamEvent.refreshing (stale.length : Int)] else []) ++
      [AnyStreamEvent.analyzing (totalFeeds : Int), AnyStreamEvent.metadata (n : Int)] ++
      gs.snapshots.map AnyStreamEvent.part ++
      [match gs.tailError with
       | none => AnyStreamEvent.complete
       | some m => AnyStreamEvent.error m] := by
  cases hgs : gs.tailError <;> simp [routeStreamEvents, hgs]

theorem matchesGenTail_parts (ds : List Json) (last : StreamEventType)
    (h : last = StreamEventType.complete ∨ last = StreamEventType.error) :
    matchesGenTail (ds.map (fun _ => StreamEventType.part) ++ [last]) = true := by
  induction ds with
  | nil => rcases h with rfl | rfl <;> rfl
  | cons d ds ih => simpa [matchesGenTail] using ih

/-- C5: when article retrieval over the requested feeds and window is empty,
the generator throws before any generation event, and the emitted sequence is
`refreshing? analyzing error` — no `metadata`, no `partial`, and `complete` is
never emitted. -/
theorem emptyWindow_events (stale : List String) (totalFeeds : Nat) (producer : GenStream) :
    routeStreamEvents stale totalFeeds (generateNewsletterStreamModel [] producer) =
      (if stale.length > 0 then [AnyStreamEvent.refreshing (stale.length : Int)] else []) ++
      [AnyStreamEvent.analyzing (totalFeeds : Int),
       AnyStreamEvent.error "No articles found for the selected feeds and date range".data] ∧
    (routeStreamEvents stale totalFeeds (generateNewsletterStreamModel [] producer)).map
        eventType =
      (if stale.length > 0 then [StreamEventType.refreshing] else []) ++
      [StreamEventType.analyzing, StreamEventType.error] ∧
    StreamEventType.metadata ∉ (routeStreamEvents stale totalFeeds
      (generateNewsletterStreamModel [] producer)).map eventType ∧
    StreamEventType.part ∉ (routeStreamEvents stale totalFeeds
      (generateNewsletterStreamModel [] producer)).map eventType ∧
    StreamEventType.complete ∉ (routeStreamEvents stale totalFeeds
      (generateNewsletterStreamModel [] producer)).map eventType := by
  have hgen : generateNewsletterStreamModel ([] : List Article) producer =
      Except.error "No articles found for the selected feeds and date range".data := rfl
  rw [hgen, routeStreamEvents_error]
  by_cases h0 : stale.length > 0 <;> simp [h0, eventType]

/-- C4 counterexample: a validated request whose article retrieval is empty
emits the event-type sequence `analyzing error` with no `metadata`, so the
claimed regular expression
`refreshing? analyzing metadata partial* (complete | error)` is not matched. -/
theorem routeStreamEvents_claimedSeq_fails :
    routeStreamEvents [] 3 (generateNewsletterStreamModel [] ⟨[], none⟩) =
      [AnyStreamEvent.analyzing 3,
       AnyStreamEvent.error "No articles found for the selected feeds and date range".data] ∧
    matchesClaimedSeq ((routeStreamEvents [] 3
      (generateNewsletterStreamModel [] ⟨[], none⟩)).map eventType) = false := by
  constructor <;> rfl

theorem filterMap_part_snapshots (snaps : List Json) :
    List.filterMap (fun ev => match ev with
      | AnyStreamEvent.part d => some d
      | _ => none) (snaps.map AnyStreamEvent.part) = snaps := by
  induction snaps with
  | nil => rfl
  | cons d ds ih => simpa [List.filterMap_cons] using ih

theorem filterMap_part_comp (snaps : List Json) :
    List.filterMap ((fun ev => match ev with
      | AnyStreamEvent.part d => some d
      | _ => none) ∘ AnyStreamEvent.part) snaps = snaps := by
  induction snaps with
  | nil => rfl
  | cons d ds ih => simpa [List.filterMap_cons, Function.comp] using ih

/-- C4 (amended): for every validated generation request the emitted sequence
of event types matches `refreshing? analyzing (error | metadata partial*
(complete | error))` — an exception thrown before the producer starts ends the
stream with a single `error` in place of the `metadata …` tail.  `refreshing`
is emitted exactly when the stale-feed set is non-empty and carries its size;
`analyzing` is emitted exactly once and carries the total requested feed
count; when the producer is reached, exactly one `metadata` precedes all
`partial` events, one `partial` is emitted per producer snapshot in order
without coalescing or dropping, and the stream ends with exactly one of
`complete` or `error`, never both. -/
theorem routeStreamEvents_spec (stale : List String) (totalFeeds : Nat)
    (gen : Except (List Char) (GenStream × Nat)) :
    matchesAmendedSeq ((routeStreamEvents stale totalFeeds gen).map eventType) = true ∧
    (routeStreamEvents stale totalFeeds gen).countP
        (fun ev => eventType ev = StreamEventType.refreshing) =
      (if stale.length > 0 then 1 else 0) ∧
    (stale.length > 0 → (routeStreamEvents stale totalFeeds gen).head? =
      some (AnyStreamEvent.refreshing (stale.length : Int))) ∧
    (routeStreamEvents stale totalFeeds gen).countP
        (fun ev => eventType ev = StreamEventType.analyzing) = 1 ∧
    AnyStreamEvent.analyzing (totalFeeds : Int) ∈ routeStreamEvents stale totalFeeds gen ∧
    (∀ gs n, gen = Except.ok (gs, n) →
      (routeStreamEvents stale totalFeeds gen).filterMap
          (fun ev => match ev with
            | AnyStreamEvent.part d => some d
            | _ => none) = gs.snapshots ∧
      routeStreamEvents stale totalFeeds gen =
        (if stale.length > 0 then [AnyStreamEvent.refreshing (stale.length : Int)] else []) ++
        [AnyStreamEvent.analyzing (totalFeeds : Int), AnyStreamEvent.metadata (n : Int)] ++
        gs.snapshots.map AnyStreamEvent.part ++
        [match gs.tailError with
         | none => AnyStreamEvent.complete
         | some m => AnyStreamEvent.error m]) ∧
    (routeStreamEvents stale totalFeeds gen).countP
        (fun ev => eventType ev = StreamEventType.complete ∨
          eventType ev = StreamEventType.error) = 1 ∧
    ∃ evs0 last, routeStreamEvents stale totalFeeds gen = evs0 ++ [last] ∧
      (last = AnyStreamEvent.complete ∨ ∃ msg, last = AnyStreamEvent.error msg) := by
  rcases gen with msg | ⟨gs, n⟩
  · rw [routeStreamEvents_error]
    refine ⟨?ea, ?eb, ?ec, ?ed, ?ee, ?ef, ?eg, ?eh⟩
    · by_cases h0 : stale.length > 0 <;>
        simp [h0, eventType, matchesAmendedSeq]
    · by_cases h0 : stale.length > 0 <;>
        simp [h0, eventType, List.countP_cons, List.countP_append, List.countP_nil]
    · intro h0
      simp [h0]
    · by_cases h0 : stale.length > 0 <;>
        simp [h0, eventType, List.countP_cons, List.countP_append, List.countP_nil]
    · by_cases h0 : stale.length > 0 <;> simp [h0]
    · intro gs n h
      exact absurd h (by simp)
    · by_cases h0 : stale.length > 0 <;>
        simp [h0, eventType, List.countP_cons, List.countP_append, List.countP_nil]
    · refine ⟨(if stale.length > 0 then [AnyStreamEvent.refreshing (stale.length : Int)]
          else []) ++ [AnyStreamEvent.analyzing (totalFeeds : Int)],
        AnyStreamEvent.error msg, ?_, Or.inr ⟨msg, rfl⟩⟩
      simp
  · obtain ⟨snaps, tailErr⟩ := gs
    rw [routeStreamEvents_ok]
    cases tailErr with
    | none =>
      refine ⟨?ka, ?kb, ?kc, ?kd, ?ke, ?kf, ?kg, ?kh⟩
      · by_cases h0 : stale.length > 0 <;>
          (simp [h0, eventType, matchesAmendedSeq, matchesAfterAnalyzing,
            List.map_append, List.map_map, Function.comp]
           exact matchesGenTail_parts snaps _ (Or.inl rfl))
      · by_cases h0 : stale.length > 0 <;>
          simp [h0, eventType, List.countP_cons, List.countP_append, List.countP_nil,
            List.countP_map, Function.comp, List.countP_false]
      · intro h0
        simp [h0]
      · by_cases h0 : stale.length > 0 <;>
          simp [h0, eventType, List.countP_cons, List.countP_append, List.countP_nil,
            List.countP_map, Function.comp, List.countP_false]
      · by_cases h0 : stale.length > 0 <;> simp [h0]
      · intro gs2 n2 heq
        injection heq with heq2
        injection heq2 with heq3 heq4
        subst heq3
        subst heq4
        refine ⟨?_, rfl⟩
        by_cases h0 : stale.length > 0 <;>
          simp [h0, List.filterMap_append, List.filterMap_cons, filterMap_part_snapshots,
            filterMap_part_comp]
      · by_cases h0 : stale.length > 0 <;>
          simp [h0, eventType, List.countP_cons, List.countP_append, List.countP_nil,
            List.countP_map, Function.comp, List.countP_false]
      · refine ⟨(if stale.length > 0 then [AnyStreamEvent.refreshing (stale.length : Int)]
            else []) ++ [AnyStreamEvent.analyzing (totalFeeds : Int),
            AnyStreamEvent.metadata (n : Int)] ++ snaps.map AnyStreamEvent.part,
          AnyStreamEvent.complete, ?_, Or.inl rfl⟩
        simp
    | some m =>
      refine ⟨?ga, ?gb, ?gc, ?gd, ?ge, ?gf, ?gg, ?gh⟩
      · by_cases h0 : stale.length > 0 <;>
          (simp [h0, eventType, matchesAmendedSeq, matchesAfterAnalyzing,
            List.map_append, List.map_map, Function.comp]
           exact matchesGenTail_parts snaps _ (Or.inr rfl))
      · by_cases h0 : stale.length > 0 <;>
          simp [h0, eventType, List.countP_cons, List.countP_append, List.countP_nil,
            List.countP_map, Function.comp, List.countP_false]
      · intro h0
        simp [h0]
      · by_cases h0 : stale.length > 0 <;>
          simp [h0, eventType, List.countP_cons, List.countP_append, List.countP_nil,
            List.countP_map, Function.comp, List.countP_false]
      · by_cases h0 : stale.length > 0 <;> simp [h0]
      · intro gs2 n2 heq
        injection heq with heq2
        injection heq2 with heq3 heq4
        subst heq3
        subst heq4
        refine ⟨?_, rfl⟩
        by_cases h0 : stale.length > 0 <;>
          simp [h0, List.filterMap_append, List.filterMap_cons, filterMap_part_snapshots,
            filterMap_part_comp]
      · by_cases h0 : stale.length > 0 <;>
          simp [h0, eventType, List.countP_cons, List.countP_append, List.countP_nil,
            List.countP_map, Function.comp, List.countP_false]
      · refine ⟨(if stale.length > 0 then [AnyStreamEvent.refreshing (stale.length : Int)]
            else []) ++ [AnyStreamEvent.analyzing (totalFeeds : Int),
            AnyStreamEvent.metadata (n : Int)] ++ snaps.map AnyStreamEvent.part,
          AnyStreamEvent.error m, ?_, Or.inr ⟨m, rfl⟩⟩
        simp

/-- Witness for C4 at a concrete request: one stale feed, two requested feeds,
a producer yielding one snapshot then finishing cleanly. -/
theorem routeStreamEvents_spec_witness :
    (["f1"] : List String).length > 0 ∧
    (routeStreamEvents ["f1"] 2 (Except.ok (⟨[Json.null], none⟩, 5))).head? =
      some (AnyStreamEvent.refreshing (((["f1"] : List String).length : Nat) : Int)) :=
  ⟨by decide, (routeStreamEvents_spec ["f1"] 2 (Except.ok (⟨[Json.null], none⟩, 5))).2.2.1
    (by decide)⟩

/-- C3: a requested feed with a stored record is refreshed exactly when no
stored record sharing its URL has a recorded fetch time, or the most recent
such fetch time lies strictly more than three hours before now. -/
theorem getFeedsToRefresh_stale_iff (db : List FeedRecord) (now : Int)
    (feedIds : List String) (f : FeedRecord) (hnodup : (db.map FeedRecord.id).Nodup)
    (hf : f ∈ db) (hreq : f.id ∈ feedIds) :
    f.id ∈ getFeedsToRefresh db now feedIds ↔
      ((∀ g ∈ db, g.url = f.url → g.lastFetched = none) ∨
       (∃ t, (∃ g ∈ db, g.url = f.url ∧ g.lastFetched = some t) ∧
             (∀ g ∈ db, g.url = f.url → ∀ u, g.lastFetched = some u → u ≤ t) ∧
             now - t > THREE_HOURS_MS)) := by
  rw [mem_getFeedsToRefresh_iff]
  constructor
  · rintro ⟨g, hg, hgid, hgeq, hcond⟩
    have hgf : g = f := List.inj_on_of_nodup_map hnodup hg hf hgeq
    subst hgf
    rcases hcond with hnone | ⟨t, hsome, hgt⟩
    · left
      exact (mostRecentFetch_none_iff db g.url).mp hnone
    · right
      obtain ⟨he, hub⟩ := (mostRecentFetch_some_iff db g.url t).mp hsome
      exact ⟨t, he, hub, hgt⟩
  · intro h
    refine ⟨f, hf, hreq, rfl, ?_⟩
    rcases h with hnone | ⟨t, he, hub, hgt⟩
    · left
      exact (mostRecentFetch_none_iff db f.url).mpr hnone
    · right
      exact ⟨t, (mostRecentFetch_some_iff db f.url t).mpr ⟨he, hub⟩, hgt⟩

/-- Witness for C3 at the spec's shared-URL example: two records share a URL,
one fetched one hour before now and the other never fetched. -/
theorem getFeedsToRefresh_stale_iff_witness :
    ((([⟨"a", "u", some 3600000⟩, ⟨"b", "u", none⟩] : List FeedRecord).map
        FeedRecord.id).Nodup) ∧
    ((⟨"b", "u", none⟩ : FeedRecord) ∈
      ([⟨"a", "u", some 3600000⟩, ⟨"b", "u", none⟩] : List FeedRecord)) ∧
    ((⟨"b", "u", none⟩ : FeedRecord).id ∈ ["a", "b"]) ∧
    ((⟨"b", "u", none⟩ : FeedRecord).id ∈
        getFeedsToRefresh [⟨"a", "u", some 3600000⟩, ⟨"b", "u", none⟩] 7200000 ["a", "b"] ↔
      ((∀ g ∈ ([⟨"a", "u", some 3600000⟩, ⟨"b", "u", none⟩] : List FeedRecord),
          g.url = (⟨"b", "u", none⟩ : FeedRecord).url → g.lastFetched = none) ∨
       (∃ t, (∃ g ∈ ([⟨"a", "u", some 3600000⟩, ⟨"b", "u", none⟩] : List FeedRecord),
              g.url = (⟨"b", "u", none⟩ : FeedRecord).url ∧ g.lastFetched = some t) ∧
             (∀ g ∈ ([⟨"a", "u", some 3600000⟩, ⟨"b", "u", none⟩] : List FeedRecord),
                g.url = (⟨"b", "u", none⟩ : FeedRecord).url →
                ∀ u, g.lastFetched = some u → u ≤ t) ∧
             7200000 - t > THREE_HOURS_MS))) := by
  refine ⟨?_, ?_, ?_, ?_⟩
  · simp
  · exact List.mem_cons_of_mem _ (List.mem_cons_self _ _)
  · simp
  · exact getFeedsToRefresh_stale_iff _ 7200000 _ _ (by simp)
      (List.mem_cons_of_mem _ (List.mem_cons_self _ _)) (by simp)

/-- C9: the refresh set only ever contains requested ids that have a stored
record; a requested id with no stored record is silently omitted — neither
treated as stale nor surfaced as an error. -/
theorem getFeedsToRefresh_silent_omission (db : List FeedRecord) (now : Int)
    (feedIds : List String) :
    (∀ i ∈ getFeedsToRefresh db now feedIds, i ∈ feedIds ∧ ∃ f ∈ db, f.id = i) ∧
    (∀ i ∈ feedIds, (∀ f ∈ db, f.id ≠ i) → i ∉ getFeedsToRefresh db now feedIds) := by
  constructor
  · intro i hi
    rw [mem_getFeedsToRefresh_iff] at hi
    obtain ⟨f, hf, hfid, hfeq, _⟩ := hi
    exact ⟨hfeq ▸ hfid, f, hf, hfeq⟩
  · intro i hi hnone hmem
    rw [mem_getFeedsToRefresh_iff] at hmem
    obtain ⟨f, hf, _, hfeq, _⟩ := hmem
    exact hnone f hf hfeq

/-- Witness for C9: a requested id with no stored record at all is omitted. -/
theorem getFeedsToRefresh_silent_omission_witness :
    "x" ∈ ["x"] ∧ (∀ f ∈ ([] : List FeedRecord), f.id ≠ "x") ∧
    "x" ∉ getFeedsToRefresh [] 0 ["x"] :=
  ⟨by simp, by simp, (getFeedsToRefresh_silent_omission [] 0 ["x"]).2 "x" (by simp) (by simp)⟩

theorem bool_ne_false_eq_true (b : Bool) (h : b ≠ false) : b = true := by
  cases b
  · exact absurd rfl h
  · rfl

theorem isArrayOpt_true_iff (o : Option Json) :
    isArrayOpt o = true ↔ ∃ a, o = some (Json.arr a) := by
  cases o with
  | none => simp [isArrayOpt]
  | some j => cases j <;> simp [isArrayOpt]

/-- C8: the endpoint opens a stream exactly when the body carries a non-empty
`feedIds` array and truthy `startDate` and `endDate`; every rejected body gets
a pre-stream JSON error response with status 400, and the response is always
either such a 4xx error or an opened stream. -/
theorem POST_validation (body : Json) (stale : List String)
    (gen : Except (List Char) (GenStream × Nat)) :
    ((∃ evs, POST body stale gen = PostResponse.sseStream evs) ↔
      (∃ arr, jget body "feedIds".data = some (Json.arr arr) ∧ arr ≠ [] ∧
        truthyOpt (jget body "startDate".data) = true ∧
        truthyOpt (jget body "endDate".data) = true)) ∧
    (∀ st msg, POST body stale gen = PostResponse.jsonError st msg → st = 400) ∧
    ((∃ msg, POST body stale gen = PostResponse.jsonError 400 msg) ∨
      ∃ evs, POST body stale gen = PostResponse.sseStream evs) := by
  unfold POST
  by_cases h1 : truthyOpt (jget body "feedIds".data) = false ∨
      isArrayOpt (jget body "feedIds".data) = false ∨ arrayLen (jget body "feedIds".data) = 0
  · rw [if_pos h1]
    refine ⟨⟨fun ⟨evs, hevs⟩ => PostResponse.noConfusion hevs, ?_⟩, ?_, Or.inl ⟨_, rfl⟩⟩
    · rintro ⟨arr, harr, hne, _, _⟩
      exfalso
      rcases h1 with h1 | h1 | h1
      · rw [harr] at h1
        simp [truthyOpt, truthy] at h1
      · rw [harr] at h1
        simp [isArrayOpt] at h1
      · rw [harr] at h1
        simp [arrayLen] at h1
        exact hne h1
    · intro st msg hmsg
      injection hmsg with hst _
      exact hst.symm
  · rw [if_neg h1]
    push_neg at h1
    obtain ⟨ht, ha, hl⟩ := h1
    obtain ⟨arr, harr⟩ := (isArrayOpt_true_iff _).mp (bool_ne_false_eq_true _ ha)
    by_cases h2 : truthyOpt (jget body "startDate".data) = false ∨
        truthyOpt (jget body "endDate".data) = false
    · rw [if_pos h2]
      refine ⟨⟨fun ⟨evs, hevs⟩ => PostResponse.noConfusion hevs, ?_⟩, ?_, Or.inl ⟨_, rfl⟩⟩
      · rintro ⟨arr2, _, _, hs2, he2⟩
        exfalso
        rcases h2 with h2 | h2
        · rw [hs2] at h2
          exact absurd h2 (by decide)
        · rw [he2] at h2
          exact absurd h2 (by decide)
      · intro st msg hmsg
        injection hmsg with hst _
        exact hst.symm
    · rw [if_neg h2]
      push_neg at h2
      obtain ⟨hs, he⟩ := h2
      have hs2 := bool_ne_false_eq_true _ hs
      have he2 := bool_ne_false_eq_true _ he
      refine ⟨⟨fun _ => ⟨arr, harr, ?_, hs2, he2⟩, fun _ => ⟨_, rfl⟩⟩, ?_, Or.inr ⟨_, rfl⟩⟩
      · intro hnil
        rw [harr, hnil] at hl
        exact hl rfl
      · intro st msg hmsg
        exact PostResponse.noConfusion hmsg

/-- Witness for C8: a body with no `feedIds` field is rejected with 400. -/
theorem POST_validation_witness :
    POST (Json.obj []) [] (Except.error []) =
      PostResponse.jsonError 400 "feedIds is required and must be a non-empty array".data ∧
    (400 : Nat) = 400 :=
  ⟨rfl, (POST_validation (Json.obj []) [] (Except.error [])).2.1 400
    "feedIds is required and must be a non-empty array".data rfl⟩

/-- C6: the client reducer is a pure fold: each `partial` replaces the stored
content wholesale and sets phase to generating, `metadata` latches the article
count and sets phase to generating, `complete` retains the last content while
marking the phase complete; folding
`[metadata 7, partial A, partial B, complete]` from the initial state yields
final content `B` with 7 articles analyzed, and replaying any event list from
the same state yields the same final state. -/
theorem handleStreamEvent_fold (a b : Json) :
    foldStreamEvents initialStreamState
        [AnyStreamEvent.metadata 7, AnyStreamEvent.part a, AnyStreamEvent.part b,
         AnyStreamEvent.complete] =
      Except.ok { loadingPhase := LoadingPhase.complete, newsletter := some b,
                  articlesAnalyzed := 7, feedCount := 0, articleCountRef := 7 } ∧
    (∀ s d, handleStreamEvent s (AnyStreamEvent.part d) =
      Except.ok { s with newsletter := some d, loadingPhase := LoadingPhase.generating }) ∧
    (∀ s n, handleStreamEvent s (AnyStreamEvent.metadata n) =
      Except.ok { s with articleCountRef := n, articlesAnalyzed := n,
                         loadingPhase := LoadingPhase.generating }) ∧
    (∀ s, handleStreamEvent s AnyStreamEvent.complete =
      Except.ok { s with loadingPhase := LoadingPhase.complete }) ∧
    (∀ s es, foldStreamEvents s es = foldStreamEvents s es) :=
  ⟨rfl, fun _ _ => rfl, fun _ _ => rfl, fun _ => rfl, fun _ _ => rfl⟩
